import Mathlib

/-!
Verification of the real-time media pipeline in `src/App.tsx` (Gemini video
call client): the wire codec (`encode`, `decode`, `createBlob`,
`decodeAudioData`), the `onmessage` handler (transcript accumulation, playback
scheduling, interruption), and the `cleanUp` teardown routine, shallowly
embedded in Lean.  Byte strings are `List ℕ` (each element `< 256`), base64
text is `List Char`, audio samples are `ℚ`, and the playback-device clock is a
`ℚ` parameter passed to each handler invocation.
-/

namespace GeminiVideoCall

/-! ## Wire codec -/

/-- The base64 alphabet used by the platform `btoa` / `atob` primitives. -/
def b64Chars : List Char :=
  ['A', 'B', 'C', 'D', 'E', 'F', 'G', 'H', 'I', 'J', 'K', 'L', 'M',
   'N', 'O', 'P', 'Q', 'R', 'S', 'T', 'U', 'V', 'W', 'X', 'Y', 'Z',
   'a', 'b', 'c', 'd', 'e', 'f', 'g', 'h', 'i', 'j', 'k', 'l', 'm',
   'n', 'o', 'p', 'q', 'r', 's', 't', 'u', 'v', 'w', 'x', 'y', 'z',
   '0', '1', '2', '3', '4', '5', '6', '7', '8', '9', '+', '/']

/-- The alphabet character for a sextet value (`n < 64`). -/
def b64Char (n : ℕ) : Char := b64Chars.getD n '='

/-- The sextet value of an alphabet character (the `atob` table lookup). -/
def b64Index (c : Char) : ℕ := b64Chars.findIdx (fun d => d == c)

/-- Platform `btoa`: base64-encode a byte sequence (standard RFC 4648 with
trailing `=` padding), three bytes to four characters. -/
def btoa : List ℕ → List Char
  | [] => []
  | [a] => [b64Char (a / 4), b64Char (a % 4 * 16), '=', '=']
  | [a, b] => [b64Char (a / 4), b64Char (a % 4 * 16 + b / 16), b64Char (b % 16 * 4), '=']
  | a :: b :: c :: rest =>
      b64Char (a / 4) :: b64Char (a % 4 * 16 + b / 16) :: b64Char (b % 16 * 4 + c / 64) ::
        b64Char (c % 64) :: btoa rest

/-- Platform `atob`: base64-decode four characters to three bytes, honouring
trailing `=` padding.  (Real `atob` raises on malformed input; this model is
only ever applied to well-formed base64 in the claims.) -/
def atob : List Char → List ℕ
  | c1 :: c2 :: c3 :: c4 :: rest =>
      let b1 := b64Index c1 * 4 + b64Index c2 / 16
      if c3 = '=' then [b1]
      else
        let b2 := b64Index c2 % 16 * 16 + b64Index c3 / 4
        if c4 = '=' then [b1, b2]
        else b1 :: b2 :: (b64Index c3 % 4 * 64 + b64Index c4) :: atob rest
  | _ => []

/-- `encode` from App.tsx: builds a binary string from the byte values
(`String.fromCharCode` is the identity on codes below 256) and applies
`btoa`. -/
def encode (bytes : List ℕ) : List Char := btoa bytes

/-- `decode` from App.tsx: applies `atob` and reads the bytes back with
`charCodeAt` (the identity on codes below 256). -/
def decode (base64 : List Char) : List ℕ := atob base64

/-- Interpretation of a 16-bit two's-complement store: reduce modulo `2^16`
into the signed range `[-32768, 32767]` (ECMAScript `ToInt16` after
truncation). -/
def toInt16 (n : ℤ) : ℤ := (n + 32768) % 65536 - 32768

/-- ECMAScript number-to-integer truncation (toward zero), on rationals. -/
def truncQ (q : ℚ) : ℤ := if 0 ≤ q then ⌊q⌋ else ⌈q⌉

/-- The value stored by `int16[i] = data[i] * 32768` in `createBlob`:
scale by `32768`, truncate toward zero, wrap modulo `2^16` (ECMAScript
`ToInt16` semantics of an `Int16Array` element write). -/
def storeInt16 (x : ℚ) : ℤ := toInt16 (truncQ (x * 32768))

/-- The unsigned 16-bit representation of a signed 16-bit value. -/
def toUInt16 (v : ℤ) : ℕ := (v % 65536).toNat

/-- Little-endian byte pair of one `Int16Array` element, as exposed by
`new Uint8Array(int16.buffer)`. -/
def int16ToBytes (v : ℤ) : List ℕ := [toUInt16 v % 256, toUInt16 v / 256]

/-- Reading a byte buffer as `new Int16Array(data.buffer)`: consecutive
little-endian pairs, each interpreted as a signed 16-bit value. -/
def bytesToInt16s : List ℕ → List ℤ
  | lo :: hi :: rest => toInt16 (lo + 256 * hi) :: bytesToInt16s rest
  | _ => []

/-- The media blob returned by `createBlob`. -/
structure GenaiBlob where
  data : List Char
  mimeType : String
deriving DecidableEq

/-- `createBlob` from App.tsx: quantize each float sample with
`int16[i] = data[i] * 32768`, expose the `Int16Array` buffer as bytes, and
base64-encode them. -/
def createBlob (data : List ℚ) : GenaiBlob :=
  { data := encode (((data.map storeInt16).map int16ToBytes).flatten)
    mimeType := "audio/pcm;rate=16000" }

/-- The decoded audio buffer produced by `ctx.createBuffer` plus the channel
fill loop of `decodeAudioData`. -/
structure AudioBuffer where
  numChannels : ℕ
  frameCount : ℕ
  sampleRateHz : ℕ
  channels : List (List ℚ)
deriving DecidableEq

/-- `AudioBuffer.duration` of the Web Audio API: frames over sample rate. -/
def AudioBuffer.duration (b : AudioBuffer) : ℚ := (b.frameCount : ℚ) / (b.sampleRateHz : ℚ)

/-- `decodeAudioData` from App.tsx.  `none` models a thrown exception:
`new Int16Array(data.buffer)` raises when the byte length is odd, and
`ctx.createBuffer` raises when the frame count is zero.  Otherwise channel
`ch` holds `dataInt16[i * numChannels + ch] / 32768` for each frame `i`.
(The `AudioContext` argument of the source, used only to create the buffer,
is dropped.) -/
def decodeAudioData (data : List ℕ) (sampleRate numChannels : ℕ) : Option AudioBuffer :=
  if data.length % 2 ≠ 0 then none
  else
    let dataInt16 := bytesToInt16s data
    let frameCount := dataInt16.length / numChannels
    if frameCount = 0 then none
    else some
      { numChannels := numChannels
        frameCount := frameCount
        sampleRateHz := sampleRate
        channels := (List.range numChannels).map fun channel =>
          (List.range frameCount).map fun i =>
            ((dataInt16.getD (i * numChannels + channel) 0 : ℤ) : ℚ) / 32768 }

/-- The full encode→decode pipeline of the spec's round-trip property:
`createBlob`, then `decode` of the base64 text, then `decodeAudioData` at the
output rate with one channel (the arguments used at the call site), returning
channel 0. -/
def roundTrip (x : List ℚ) : Option (List ℚ) :=
  (decodeAudioData (decode (createBlob x).data) 24000 1).map fun buf => buf.channels.getD 0 []

/-! ## Codec lemmas -/

theorem b64Index_b64Char : ∀ n : ℕ, n < 64 → b64Index (b64Char n) = n := by decide

theorem b64Char_ne_pad : ∀ n : ℕ, n < 64 → b64Char n ≠ '=' := by decide

/-- `atob` inverts `btoa` on byte sequences. -/
theorem atob_btoa : ∀ bs : List ℕ, (∀ b ∈ bs, b < 256) → atob (btoa bs) = bs
  | [], _ => rfl
  | [a], h => by
    have ha : a < 256 := h a (by simp)
    simp only [btoa, atob, reduceIte]
    rw [b64Index_b64Char _ (by omega), b64Index_b64Char _ (by omega)]
    have : a / 4 * 4 + a % 4 * 16 / 16 = a := by omega
    rw [this]
  | [a, b], h => by
    have ha : a < 256 := h a (by simp)
    have hb : b < 256 := h b (by simp)
    simp only [btoa, atob]
    rw [if_neg (b64Char_ne_pad _ (by omega))]
    simp only [reduceIte]
    rw [b64Index_b64Char _ (by omega), b64Index_b64Char _ (by omega),
      b64Index_b64Char _ (by omega)]
    have e1 : a / 4 * 4 + (a % 4 * 16 + b / 16) / 16 = a := by omega
    have e2 : (a % 4 * 16 + b / 16) % 16 * 16 + b % 16 * 4 / 4 = b := by omega
    rw [e1, e2]
  | a :: b :: c :: rest, h => by
    have ha : a < 256 := h a (by simp)
    have hb : b < 256 := h b (by simp)
    have hc : c < 256 := h c (by simp)
    have ih := atob_btoa rest fun x hx => h x (by simp [hx])
    simp only [btoa, atob]
    rw [if_neg (b64Char_ne_pad _ (by omega)), if_neg (b64Char_ne_pad _ (by omega))]
    rw [b64Index_b64Char _ (by omega), b64Index_b64Char _ (by omega),
      b64Index_b64Char _ (by omega), b64Index_b64Char _ (by omega), ih]
    have e1 : a / 4 * 4 + (a % 4 * 16 + b / 16) / 16 = a := by omega
    have e2 : (a % 4 * 16 + b / 16) % 16 * 16 + (b % 16 * 4 + c / 64) / 4 = b := by omega
    have e3 : (b % 16 * 4 + c / 64) % 4 * 64 + c % 64 = c := by omega
    rw [e1, e2, e3]

theorem btoa_ne_nil : ∀ bs : List ℕ, bs ≠ [] → btoa bs ≠ []
  | [], h => absurd rfl h
  | [_], _ => by simp [btoa]
  | [_, _], _ => by simp [btoa]
  | _ :: _ :: _ :: _, _ => by simp [btoa]

theorem toInt16_range (n : ℤ) : -32768 ≤ toInt16 n ∧ toInt16 n < 32768 := by
  unfold toInt16; omega

theorem toInt16_eq_self (n : ℤ) (h1 : -32768 ≤ n) (h2 : n < 32768) : toInt16 n = n := by
  unfold toInt16; omega

theorem int16ToBytes_lt (v : ℤ) : ∀ b ∈ int16ToBytes v, b < 256 := by
  unfold int16ToBytes toUInt16
  intro b hb
  simp only [List.mem_cons, List.mem_singleton, List.not_mem_nil, or_false] at hb
  rcases hb with h | h <;> omega

/-- Reading back one little-endian pair recovers the signed value. -/
theorem bytesToInt16s_pair (v : ℤ) (rest : List ℕ) (h1 : -32768 ≤ v) (h2 : v < 32768) :
    bytesToInt16s (int16ToBytes v ++ rest) = v :: bytesToInt16s rest := by
  simp only [int16ToBytes, List.cons_append, List.nil_append, bytesToInt16s,
    List.cons.injEq]
  refine ⟨?_, rfl⟩
  unfold toInt16 toUInt16
  omega

/-- Reading back the flattened little-endian pairs of in-range values. -/
theorem bytesToInt16s_flatten (l : List ℤ) (h : ∀ v ∈ l, -32768 ≤ v ∧ v < 32768) :
    bytesToInt16s ((l.map int16ToBytes).flatten) = l := by
  induction l with
  | nil => rfl
  | cons v t ih =>
    have hv := h v (by simp)
    rw [List.map_cons, List.flatten_cons, bytesToInt16s_pair v _ hv.1 hv.2,
      ih fun x hx => h x (by simp [hx])]

theorem flatten_int16ToBytes_length (l : List ℤ) :
    ((l.map int16ToBytes).flatten).length = 2 * l.length := by
  induction l with
  | nil => rfl
  | cons v t ih =>
    rw [List.map_cons, List.flatten_cons, List.length_append, ih]
    simp only [int16ToBytes, List.length_cons, List.length_nil]
    omega

theorem bytesToInt16s_length : ∀ l : List ℕ, (bytesToInt16s l).length = l.length / 2
  | [] => rfl
  | [_] => by simp [bytesToInt16s]
  | _ :: _ :: rest => by
    simp only [bytesToInt16s, List.length_cons, bytesToInt16s_length rest]
    omega

theorem map_range_getD {β : Type} (l : List ℤ) (f : ℤ → β) :
    (List.range l.length).map (fun i => f (l.getD i 0)) = l.map f := by
  induction l with
  | nil => rfl
  | cons a t ih =>
    rw [List.length_cons, List.range_succ_eq_map, List.map_cons, List.map_map, List.map_cons,
      List.getD_cons_zero, ← ih]
    congr 1

/-- `decodeAudioData` on a well-formed single-channel byte stream. -/
theorem decodeAudioData_eq (data : List ℕ) (hev : data.length % 2 = 0) (hne : data ≠ [])
    (sr : ℕ) :
    decodeAudioData data sr 1 = some
      { numChannels := 1
        frameCount := data.length / 2
        sampleRateHz := sr
        channels := [(bytesToInt16s data).map fun v => ((v : ℤ) : ℚ) / 32768] } := by
  have hlen : (bytesToInt16s data).length = data.length / 2 := bytesToInt16s_length data
  have hpos : data.length / 2 ≠ 0 := by
    have : data.length ≠ 0 := fun h => hne (List.eq_nil_of_length_eq_zero h)
    omega
  unfold decodeAudioData
  rw [if_neg (by omega)]
  simp only [Nat.div_one, hlen]
  rw [if_neg hpos]
  congr 1
  congr 1
  rw [show List.range 1 = [0] from rfl, List.map_cons, List.map_nil]
  congr 1
  rw [← hlen, ← map_range_getD (bytesToInt16s data) (fun v => ((v : ℤ) : ℚ) / 32768)]
  refine List.map_congr_left fun i _ => ?_
  norm_num

/-! ## Quantization lemmas -/

/-- Truncation toward zero moves a rational by strictly less than one. -/
theorem truncQ_sub_lt (q : ℚ) : |(truncQ q : ℚ) - q| < 1 := by
  unfold truncQ
  split
  · rw [abs_sub_lt_iff]
    constructor
    · linarith [Int.floor_le q]
    · linarith [Int.lt_floor_add_one q]
  · rw [abs_sub_lt_iff]
    constructor
    · linarith [Int.ceil_lt_add_one q]
    · linarith [Int.le_ceil q]

/-- Truncation toward zero of a rational in the signed 16-bit window stays in it. -/
theorem truncQ_range (q : ℚ) (h1 : -32768 ≤ q) (h2 : q < 32768) :
    -32768 ≤ truncQ q ∧ truncQ q < 32768 := by
  unfold truncQ
  split
  · rename_i h
    refine ⟨Int.le_floor.mpr (by exact_mod_cast h1), Int.floor_lt.mpr (by exact_mod_cast h2)⟩
  · rename_i h
    push_neg at h
    have hup : ⌈q⌉ ≤ 0 := Int.ceil_le.mpr (by exact_mod_cast h.le)
    have hlow : (-32768 : ℚ) ≤ (⌈q⌉ : ℚ) := le_trans h1 (Int.le_ceil q)
    exact ⟨by exact_mod_cast hlow, by omega⟩

/-- Inside `[-1, 1)` the `Int16Array` store does not wrap: it is plain truncation
of the scaled sample, and lands in the signed 16-bit window. -/
theorem storeInt16_eq_truncQ (a : ℚ) (h1 : -1 ≤ a) (h2 : a < 1) :
    storeInt16 a = truncQ (a * 32768) ∧
    -32768 ≤ truncQ (a * 32768) ∧ truncQ (a * 32768) < 32768 := by
  have hq1 : (-32768 : ℚ) ≤ a * 32768 := by linarith
  have hq2 : a * 32768 < 32768 := by linarith
  have hr := truncQ_range _ hq1 hq2
  exact ⟨by unfold storeInt16; exact toInt16_eq_self _ hr.1 hr.2, hr⟩

/-- Per-sample round-trip error inside `[-1, 1)` is under one quantization step. -/
theorem storeInt16_error (a : ℚ) (h1 : -1 ≤ a) (h2 : a < 1) :
    |((storeInt16 a : ℤ) : ℚ) / 32768 - a| ≤ 1 / 32768 := by
  obtain ⟨he, _, _⟩ := storeInt16_eq_truncQ a h1 h2
  rw [he]
  have hd := truncQ_sub_lt (a * 32768)
  rw [abs_sub_lt_iff] at hd
  rw [abs_le]
  constructor <;> linarith

/-- The full pipeline on a nonempty block: base64 and byte-level round-trips
cancel, leaving exactly the per-sample quantization. -/
theorem roundTrip_eq (x : List ℚ) (hne : x ≠ []) :
    roundTrip x = some (x.map fun a => ((storeInt16 a : ℤ) : ℚ) / 32768) := by
  have hbytes : ∀ b ∈ ((x.map storeInt16).map int16ToBytes).flatten, b < 256 := by
    intro b hb
    rw [List.mem_flatten] at hb
    obtain ⟨l, hl, hbl⟩ := hb
    rw [List.mem_map] at hl
    obtain ⟨v, _, rfl⟩ := hl
    exact int16ToBytes_lt v b hbl
  have hrange : ∀ v ∈ x.map storeInt16, -32768 ≤ v ∧ v < 32768 := by
    intro v hv
    rw [List.mem_map] at hv
    obtain ⟨a, _, rfl⟩ := hv
    exact toInt16_range _
  have hlen : (((x.map storeInt16).map int16ToBytes).flatten).length = 2 * x.length := by
    rw [flatten_int16ToBytes_length, List.length_map]
  have hxlen : x.length ≠ 0 := fun h => hne (List.eq_nil_of_length_eq_zero h)
  have hbne : ((x.map storeInt16).map int16ToBytes).flatten ≠ [] := by
    intro h
    rw [h] at hlen
    simp only [List.length_nil] at hlen
    omega
  unfold roundTrip createBlob encode decode
  rw [atob_btoa _ hbytes, decodeAudioData_eq _ (by omega) hbne 24000,
    bytesToInt16s_flatten _ hrange]
  simp only [Option.map_some, Option.map_some', List.getD_cons_zero, List.map_map]
  rfl

/-! ## The `onmessage` handler

State touched by `onmessage`: the finalized transcript list, the two pending
transcription buffers (React state updated through functional setters, so they
accumulate correctly across events), the scheduling cursor `nextStartTimeRef`,
and the active-source set `audioSourcesRef` (modelled as the list of source
ids in insertion order, with a fresh-id counter).  `starts` is a ghost log of
the `source.start(t)` calls issued to the output device, most recent first,
recording `(source id, start time, buffer duration)`.

The handler closure is created once, inside the render of `handleStartCall`,
and registered with the session; it is never re-created.  Hence line 276's
direct reads of `currentInputTranscription` / `currentOutputTranscription`
see the values captured by that render for the whole call — they are modelled
as the fixed parameters `capturedInput` / `capturedOutput` — while the
functional updates `set...(prev => prev + text)` act on the live React state
(`currentInput` / `currentOutput` fields).  The device clock
`audioCtx.currentTime` is the parameter `now`. -/

inductive Speaker where
  | user
  | model
deriving DecidableEq

structure Transcript where
  speaker : Speaker
  text : String
deriving DecidableEq

/-- One inbound `LiveServerMessage`, reduced to the fields `onmessage` reads:
`serverContent.inputTranscription?.text`, `.outputTranscription?.text`,
`.turnComplete`, `.modelTurn?.parts[0]?.inlineData?.data` (base64 text) and
`.interrupted`. -/
structure Msg where
  inputTranscription : Option String
  outputTranscription : Option String
  turnComplete : Bool
  audioData : Option (List Char)
  interrupted : Bool

structure AppState where
  transcripts : List Transcript
  currentInput : String
  currentOutput : String
  nextStartTime : ℚ
  audioSources : List ℕ
  nextSourceId : ℕ
  starts : List (ℕ × ℚ × ℚ)
deriving DecidableEq

/-- Lines 298-302: on `interrupted`, stop every active source, clear the set,
and reset the cursor to the constant `0` (not to the device clock). -/
def interruptCheck (s : AppState) (m : Msg) : AppState :=
  if m.interrupted then { s with audioSources := [], nextStartTime := 0 } else s

/-- The `onmessage` callback (lines 267-303), as a state transformer.
A `none` result of `decodeAudioData` models the exception thrown on a
malformed chunk: it aborts the rest of the handler (in particular the
`interrupted` check below it), and the chunk is never scheduled. -/
def onmessage (capturedInput capturedOutput : String) (now : ℚ) (s : AppState)
    (m : Msg) : AppState :=
  -- lines 269-274: append fragments to the pending buffers (functional updates)
  let s1 := match m.inputTranscription with
    | some t => { s with currentInput := s.currentInput ++ t }
    | none => s
  let s2 := match m.outputTranscription with
    | some t => { s1 with currentOutput := s1.currentOutput ++ t }
    | none => s1
  -- lines 275-282: finalize both turns, reading the stale closure captures
  let s3 := if m.turnComplete then
      { s2 with
        transcripts := s2.transcripts ++
          [⟨Speaker.user, capturedInput ++ m.inputTranscription.getD ""⟩,
           ⟨Speaker.model, capturedOutput ++ m.outputTranscription.getD ""⟩]
        currentInput := ""
        currentOutput := "" }
    else s2
  -- lines 285-297: audio scheduling (`base64Audio && outputAudioContext` guard)
  match m.audioData with
  | some b64 =>
    if b64 = [] then interruptCheck s3 m
    else
      -- line 288
      let s4 := { s3 with nextStartTime := max s3.nextStartTime now }
      match decodeAudioData (decode b64) 24000 1 with
      | none => s4
      | some buf =>
        -- lines 290-296: create, start at the cursor, advance, add to the set
        let s5 := { s4 with
          starts := (s4.nextSourceId, s4.nextStartTime, buf.duration) :: s4.starts
          nextStartTime := s4.nextStartTime + buf.duration
          audioSources := s4.audioSources ++ [s4.nextSourceId]
          nextSourceId := s4.nextSourceId + 1 }
        interruptCheck s5 m
  | none => interruptCheck s3 m

def initialState : AppState :=
  { transcripts := []
    currentInput := ""
    currentOutput := ""
    nextStartTime := 0
    audioSources := []
    nextSourceId := 0
    starts := [] }

def inputMsg (t : String) : Msg := ⟨some t, none, false, none, false⟩

def outputMsg (t : String) : Msg := ⟨none, some t, false, none, false⟩

def turnCompleteMsg : Msg := ⟨none, none, true, none, false⟩

def audioMsg (b : List Char) : Msg := ⟨none, none, false, some b, false⟩

def interruptedMsg : Msg := ⟨none, none, false, none, true⟩

/-- Run a sequence of pure audio-chunk events; each event carries the device
clock at delivery and the raw payload bytes (sent base64-encoded). -/
def runAudio (ci co : String) (s : AppState) : List (ℚ × List ℕ) → AppState
  | [] => s
  | (now, bs) :: rest => runAudio ci co (onmessage ci co now s (audioMsg (btoa bs))) rest

/-! ## The `cleanUp` routine

`cleanUp` (lines 161-196) is modelled over the full resource state, together
with the list of release actions it performs, in program order.  Every branch
nulls its ref after acting (or acts through `?.`), so the routine always
leaves the fully-cleared state. -/

inductive CleanupAction where
  | closeSession
  | stopTrack (t : ℕ)
  | clearFrameInterval (i : ℕ)
  | disconnectProcessor
  | closeInputContext
  | closeOutputContext
  | stopSource (i : ℕ)
deriving DecidableEq

structure ResourceState where
  sessionPromise : Bool
  localStream : Option (List ℕ)
  frameInterval : Option ℕ
  scriptProcessor : Bool
  inputAudioContext : Bool
  outputAudioContext : Bool
  audioSources : List ℕ
  nextStartTime : ℚ
  isCallActive : Bool
  isConnecting : Bool
deriving DecidableEq

/-- The cleared state `cleanUp` leaves behind. -/
def clearedState : ResourceState :=
  { sessionPromise := false
    localStream := none
    frameInterval := none
    scriptProcessor := false
    inputAudioContext := false
    outputAudioContext := false
    audioSources := []
    nextStartTime := 0
    isCallActive := false
    isConnecting := false }

/-- `cleanUp` from App.tsx: each guarded block releases its resource and nulls
the ref; the source set is stopped element-wise and cleared; the cursor is
reset; both flags are lowered.  Session close and audio-context close failures
are caught inside the routine (`.catch`), so no step raises. -/
def cleanUp (s : ResourceState) : ResourceState × List CleanupAction :=
  (clearedState,
    (if s.sessionPromise then [CleanupAction.closeSession] else []) ++
    (match s.localStream with
      | some ts => ts.map CleanupAction.stopTrack
      | none => []) ++
    (match s.frameInterval with
      | some i => [CleanupAction.clearFrameInterval i]
      | none => []) ++
    (if s.scriptProcessor then [CleanupAction.disconnectProcessor] else []) ++
    (if s.inputAudioContext then [CleanupAction.closeInputContext] else []) ++
    (if s.outputAudioContext then [CleanupAction.closeOutputContext] else []) ++
    s.audioSources.map CleanupAction.stopSource)

/-! ## Scheduling lemmas -/

/-- One valid audio chunk: the source starts at `max nextStartTime now`, is
appended to the active set, and the cursor advances by the chunk duration. -/
theorem onmessage_audio_step (ci co : String) (now : ℚ) (t : AppState) (bs : List ℕ)
    (hne : bs ≠ []) (hev : bs.length % 2 = 0) (h256 : ∀ b ∈ bs, b < 256) :
    onmessage ci co now t (audioMsg (btoa bs)) =
      { t with
        starts := (t.nextSourceId, max t.nextStartTime now,
          ((bs.length / 2 : ℕ) : ℚ) / 24000) :: t.starts
        nextStartTime := max t.nextStartTime now + ((bs.length / 2 : ℕ) : ℚ) / 24000
        audioSources := t.audioSources ++ [t.nextSourceId]
        nextSourceId := t.nextSourceId + 1 } := by
  simp only [onmessage, audioMsg, interruptCheck, decode, reduceIte]
  rw [if_neg (btoa_ne_nil bs hne), atob_btoa bs h256, decodeAudioData_eq bs hev hne 24000]
  simp only [AudioBuffer.duration, reduceIte]
  norm_num

/-- A malformed audio chunk (odd byte length): the decode exception aborts the
handler after line 288, so only the `max` update of the cursor happens. -/
theorem onmessage_audio_malformed (ci co : String) (now : ℚ) (t : AppState) (bs : List ℕ)
    (hodd : bs.length % 2 = 1) (h256 : ∀ b ∈ bs, b < 256) :
    onmessage ci co now t (audioMsg (btoa bs)) =
      { t with nextStartTime := max t.nextStartTime now } := by
  have hne : bs ≠ [] := by
    intro h
    rw [h] at hodd
    simp at hodd
  simp only [onmessage, audioMsg, interruptCheck, decode, reduceIte]
  rw [if_neg (btoa_ne_nil bs hne), atob_btoa bs h256]
  unfold decodeAudioData
  rw [if_pos (by omega)]
  simp

/-- Over a run of valid audio chunks, the start log stays reverse-chronological
with no overlap, and the cursor stays at or past the end of the latest start.
(`starts` holds the most recent entry first.) -/
theorem runAudio_chain (ci co : String) :
    ∀ (evts : List (ℚ × List ℕ)) (s : AppState),
      (∀ e ∈ evts, e.2 ≠ [] ∧ e.2.length % 2 = 0 ∧ ∀ b ∈ e.2, b < 256) →
      (∀ p ∈ s.starts.head?, p.2.1 + p.2.2 ≤ s.nextStartTime) →
      List.Chain' (fun a b : ℕ × ℚ × ℚ => b.2.1 + b.2.2 ≤ a.2.1) s.starts →
      (∀ p ∈ (runAudio ci co s evts).starts.head?,
        p.2.1 + p.2.2 ≤ (runAudio ci co s evts).nextStartTime) ∧
      List.Chain' (fun a b : ℕ × ℚ × ℚ => b.2.1 + b.2.2 ≤ a.2.1)
        (runAudio ci co s evts).starts
  | [], _, _, hinv, hch => ⟨hinv, hch⟩
  | (now, bs) :: rest, s, hval, hinv, hch => by
    have hv := hval (now, bs) (by simp)
    rw [runAudio, onmessage_audio_step ci co now s bs hv.1 hv.2.1 hv.2.2]
    refine runAudio_chain ci co rest _ (fun e he => hval e (by simp [he])) ?_ ?_
    · intro p hp
      simp only [Option.mem_def, List.head?_cons, Option.some.injEq] at hp
      subst hp
      exact le_refl _
    · rw [List.chain'_cons']
      refine ⟨?_, hch⟩
      intro p hp
      calc p.2.1 + p.2.2 ≤ s.nextStartTime := hinv p hp
        _ ≤ max s.nextStartTime now := le_max_left _ _

/-! ## Claim theorems -/

/-- Claim C1: the claim requires that handling an interruption stop every
active source, empty the active-source set, and reset `nextStartTime` to a
value at or above the device's current clock — never to a fixed constant such
as zero.  The code empties the set but resets the cursor to the constant `0`:
with the device clock at `7`, the cursor ends up at `0 < 7`, refuting the
reset requirement (lines 298-302 of App.tsx). -/
theorem c1_interrupt_resets_cursor_to_zero :
    let s : AppState :=
      { initialState with nextStartTime := 5, audioSources := [3, 4], nextSourceId := 5 }
    let s2 := onmessage "" "" 7 s interruptedMsg
    s2.audioSources = [] ∧ s2.nextStartTime = 0 ∧ s2.nextStartTime < 7 := by decide

/-- Claim C2: over any interruption-free sequence of decoded audio chunks, each
chunk starts at `max nextStartTime now`, at or after the previous chunk's end
(no overlap), and the cursor then advances to `startAt + duration`, with the
source appended to the active set.  The first conjunct is the no-overlap chain
over the chronological start log of a whole run; the second characterizes every
single scheduling decision. -/
theorem c2_scheduling_no_overlap (ci co : String) (s : AppState)
    (evts : List (ℚ × List ℕ))
    (hval : ∀ e ∈ evts, e.2 ≠ [] ∧ e.2.length % 2 = 0 ∧ ∀ b ∈ e.2, b < 256)
    (hs : s.starts = []) :
    List.Chain' (fun a b : ℕ × ℚ × ℚ => a.2.1 + a.2.2 ≤ b.2.1)
      ((runAudio ci co s evts).starts.reverse) ∧
    ∀ (t : AppState) (now : ℚ) (bs : List ℕ),
      bs ≠ [] → bs.length % 2 = 0 → (∀ b ∈ bs, b < 256) →
      onmessage ci co now t (audioMsg (btoa bs)) =
        { t with
          starts := (t.nextSourceId, max t.nextStartTime now,
            ((bs.length / 2 : ℕ) : ℚ) / 24000) :: t.starts
          nextStartTime := max t.nextStartTime now + ((bs.length / 2 : ℕ) : ℚ) / 24000
          audioSources := t.audioSources ++ [t.nextSourceId]
          nextSourceId := t.nextSourceId + 1 } := by
  constructor
  · rw [List.chain'_reverse]
    exact (runAudio_chain ci co evts s hval
      (by rw [hs]; intro p hp; simp at hp) (by rw [hs]; exact List.chain'_nil)).2
  · exact fun t now bs h1 h2 h3 => onmessage_audio_step ci co now t bs h1 h2 h3

unseal Rat.add Rat.mul Rat.inv Rat.sub Rat.ofScientific in
theorem c2_scheduling_no_overlap_witness :
    ((∀ e ∈ ([((0 : ℚ), [0, 0]), ((0 : ℚ), [0, 1])] : List (ℚ × List ℕ)),
        e.2 ≠ [] ∧ e.2.length % 2 = 0 ∧ ∀ b ∈ e.2, b < 256) ∧
      initialState.starts = []) ∧
    (List.Chain' (fun a b : ℕ × ℚ × ℚ => a.2.1 + a.2.2 ≤ b.2.1)
      ((runAudio "" "" initialState
        ([((0 : ℚ), [0, 0]), ((0 : ℚ), [0, 1])] : List (ℚ × List ℕ))).starts.reverse) ∧
    ∀ (t : AppState) (now : ℚ) (bs : List ℕ),
      bs ≠ [] → bs.length % 2 = 0 → (∀ b ∈ bs, b < 256) →
      onmessage "" "" now t (audioMsg (btoa bs)) =
        { t with
          starts := (t.nextSourceId, max t.nextStartTime now,
            ((bs.length / 2 : ℕ) : ℚ) / 24000) :: t.starts
          nextStartTime := max t.nextStartTime now + ((bs.length / 2 : ℕ) : ℚ) / 24000
          audioSources := t.audioSources ++ [t.nextSourceId]
          nextSourceId := t.nextSourceId + 1 }) :=
  ⟨⟨by decide, rfl⟩, c2_scheduling_no_overlap "" "" initialState _ (by decide) rfl⟩

/-- Claim C3: the claim asserts `nextStartTime` is monotonically non-decreasing
across the whole inbound event stream, interruption signals included.  The
interruption handler resets the cursor to the constant `0`, so from a state
with cursor `5` an interruption strictly decreases it: the claim fails on the
code (line 301 of App.tsx). -/
theorem c3_cursor_decreases_on_interrupt :
    let s : AppState := { initialState with nextStartTime := 5 }
    (onmessage "" "" 5 s interruptedMsg).nextStartTime < s.nextStartTime := by decide

unseal Rat.add Rat.mul Rat.inv Rat.sub Rat.ofScientific in
/-- Claim C4 as stated is false: the encoder wraps rather than clamps, so the
sample `1.0` round-trips to `-1.0`, an error of `2`, far above one quantization
step; and the empty block does not decode at all (`createBuffer` rejects a
zero frame count). -/
theorem c4_roundtrip_counterexample :
    roundTrip [1] = some [-1] ∧ ¬ (|(-1 : ℚ) - 1| ≤ 1 / 32768) ∧
    roundTrip [] = none := by decide

/-- Claim C4 (amended): for every nonempty sample block with all samples in
`[-1, 1)`, decoding the encoded form reproduces the block quantized to 16-bit
fixed point, with per-sample error at most one quantization step `1/32768`. -/
theorem c4_roundtrip_error_bound (x : List ℚ) (hne : x ≠ [])
    (h : ∀ a ∈ x, -1 ≤ a ∧ a < 1) :
    roundTrip x = some (x.map fun a => ((storeInt16 a : ℤ) : ℚ) / 32768) ∧
    ∀ a ∈ x, |((storeInt16 a : ℤ) : ℚ) / 32768 - a| ≤ 1 / 32768 :=
  ⟨roundTrip_eq x hne, fun a ha => storeInt16_error a (h a ha).1 (h a ha).2⟩

unseal Rat.add Rat.mul Rat.inv Rat.sub Rat.ofScientific in
theorem c4_roundtrip_error_bound_witness :
    (([1/2, -1/4] : List ℚ) ≠ [] ∧ ∀ a ∈ ([1/2, -1/4] : List ℚ), -1 ≤ a ∧ a < 1) ∧
    (roundTrip [1/2, -1/4] =
      some (([1/2, -1/4] : List ℚ).map fun a => ((storeInt16 a : ℤ) : ℚ) / 32768) ∧
    ∀ a ∈ ([1/2, -1/4] : List ℚ),
      |((storeInt16 a : ℤ) : ℚ) / 32768 - a| ≤ 1 / 32768) :=
  ⟨⟨by decide, by decide⟩, c4_roundtrip_error_bound _ (by decide) (by decide)⟩

/-- Claim C5: on a turn-complete signal the code does append exactly two turns,
user first then model, and clears both pending buffers — but the finalized
text is not the accumulated fragments plus the same-event fragment.  The
handler closure reads the render-time captured transcription values (stale,
here empty), so a fragment `"he"` accumulated in an earlier event is dropped
from the finalized user turn, refuting the claimed turn text (line 276 of
App.tsx reads the stale closure variable, not the accumulated state). -/
theorem c5_turn_complete_drops_accumulated_text :
    let s1 : AppState := onmessage "" "" 0 initialState (inputMsg "he")
    let s2 := onmessage "" "" 0 s1 turnCompleteMsg
    s1.currentInput = "he" ∧
    s2.transcripts = [⟨Speaker.user, ""⟩, ⟨Speaker.model, ""⟩] ∧
    s2.transcripts ≠ [⟨Speaker.user, "he"⟩, ⟨Speaker.model, ""⟩] ∧
    s2.currentInput = "" ∧ s2.currentOutput = "" := by decide

/-- Claim C6: for the event sequence user `"he"`, model `"Hi"`, user `"llo"`,
then turn-complete, the claim expects the history `[user "hello", model "Hi"]`.
Because turn finalization reads the stale closure captures instead of the
accumulated buffers, the code produces `[user "", model ""]`. -/
theorem c6_interleaved_fragments_lost :
    let r : AppState := onmessage "" "" 0 (onmessage "" "" 0 (onmessage "" "" 0
      (onmessage "" "" 0 initialState (inputMsg "he")) (outputMsg "Hi"))
      (inputMsg "llo")) turnCompleteMsg
    r.transcripts = [⟨Speaker.user, ""⟩, ⟨Speaker.model, ""⟩] ∧
    r.transcripts ≠ [⟨Speaker.user, "hello"⟩, ⟨Speaker.model, "Hi"⟩] := by decide

/-- Claim C7: invoking `cleanUp` twice in a row from any state releases each
resource exactly once — stated as action counts over both invocations: the
second run performs no release at all, and the first releases the session,
processor and contexts exactly once each when held, clears the frame timer
once, stops each media track and each scheduled source exactly as often as it
is held, empties the source set, and resets the cursor.  Both runs are total
state transformers (every release in the source is guarded or error-caught),
so neither raises. -/
theorem count_ite_self (x : CleanupAction) (c : Prop) [Decidable c] :
    (if c then [x] else []).count x = if c then 1 else 0 := by
  split <;> simp

theorem count_ite_other (x y : CleanupAction) (h : y ≠ x) (c : Prop) [Decidable c] :
    (if c then [y] else []).count x = 0 := by
  split <;> simp [List.count_cons, List.count_nil, h]

theorem count_map_ne (f : ℕ → CleanupAction) (x : CleanupAction)
    (h : ∀ a, f a ≠ x) (l : List ℕ) : (l.map f).count x = 0 := by
  rw [List.count_eq_zero]
  intro hx
  rw [List.mem_map] at hx
  obtain ⟨a, _, ha⟩ := hx
  exact h a ha

theorem count_match_stream (t : ℕ) (ls : Option (List ℕ)) :
    (match ls with
      | some ts => ts.map CleanupAction.stopTrack
      | none => []).count (CleanupAction.stopTrack t) = (ls.getD []).count t := by
  cases ls with
  | none => rfl
  | some ts =>
    exact List.count_map_of_injective ts CleanupAction.stopTrack
      (fun a b h => by cases h; rfl) t

theorem count_match_stream_ne (x : CleanupAction)
    (h : ∀ a, CleanupAction.stopTrack a ≠ x) (ls : Option (List ℕ)) :
    (match ls with
      | some ts => ts.map CleanupAction.stopTrack
      | none => []).count x = 0 := by
  cases ls with
  | none => rfl
  | some ts => exact count_map_ne _ x h ts

theorem count_match_interval (i : ℕ) (fi : Option ℕ) :
    (match fi with
      | some j => [CleanupAction.clearFrameInterval j]
      | none => []).count (CleanupAction.clearFrameInterval i) =
      if fi = some i then 1 else 0 := by
  cases fi with
  | none => rfl
  | some j => by_cases h : j = i <;> simp [h, List.count_cons, List.count_nil]

theorem count_match_interval_ne (x : CleanupAction)
    (h : ∀ a, CleanupAction.clearFrameInterval a ≠ x) (fi : Option ℕ) :
    (match fi with
      | some j => [CleanupAction.clearFrameInterval j]
      | none => []).count x = 0 := by
  cases fi with
  | none => rfl
  | some j => simp [List.count_cons, List.count_nil, h j]

theorem c7_cleanup_idempotent (s : ResourceState) :
    (cleanUp (cleanUp s).1).2 = [] ∧
    (cleanUp (cleanUp s).1).1 = (cleanUp s).1 ∧
    (cleanUp s).1.audioSources = [] ∧
    (cleanUp s).1.nextStartTime = 0 ∧
    ((cleanUp s).2.count CleanupAction.closeSession =
      if s.sessionPromise then 1 else 0) ∧
    ((cleanUp s).2.count CleanupAction.disconnectProcessor =
      if s.scriptProcessor then 1 else 0) ∧
    ((cleanUp s).2.count CleanupAction.closeInputContext =
      if s.inputAudioContext then 1 else 0) ∧
    ((cleanUp s).2.count CleanupAction.closeOutputContext =
      if s.outputAudioContext then 1 else 0) ∧
    (∀ i, (cleanUp s).2.count (CleanupAction.clearFrameInterval i) =
      if s.frameInterval = some i then 1 else 0) ∧
    (∀ t, (cleanUp s).2.count (CleanupAction.stopTrack t) =
      (s.localStream.getD []).count t) ∧
    (∀ i, (cleanUp s).2.count (CleanupAction.stopSource i) = s.audioSources.count i) := by
  refine ⟨rfl, rfl, rfl, rfl, ?_, ?_, ?_, ?_, ?_, ?_, ?_⟩
  · simp only [cleanUp, List.count_append, count_ite_self,
      count_ite_other CleanupAction.closeSession CleanupAction.disconnectProcessor
        (fun h => nomatch h),
      count_ite_other CleanupAction.closeSession CleanupAction.closeInputContext
        (fun h => nomatch h),
      count_ite_other CleanupAction.closeSession CleanupAction.closeOutputContext
        (fun h => nomatch h),
      count_match_stream_ne CleanupAction.closeSession (fun a h => nomatch h),
      count_match_interval_ne CleanupAction.closeSession (fun a h => nomatch h),
      count_map_ne CleanupAction.stopSource CleanupAction.closeSession (fun a h => nomatch h)]
    simp
  · simp only [cleanUp, List.count_append, count_ite_self,
      count_ite_other CleanupAction.disconnectProcessor CleanupAction.closeSession
        (fun h => nomatch h),
      count_ite_other CleanupAction.disconnectProcessor CleanupAction.closeInputContext
        (fun h => nomatch h),
      count_ite_other CleanupAction.disconnectProcessor CleanupAction.closeOutputContext
        (fun h => nomatch h),
      count_match_stream_ne CleanupAction.disconnectProcessor (fun a h => nomatch h),
      count_match_interval_ne CleanupAction.disconnectProcessor (fun a h => nomatch h),
      count_map_ne CleanupAction.stopSource CleanupAction.disconnectProcessor
        (fun a h => nomatch h)]
    simp
  · simp only [cleanUp, List.count_append, count_ite_self,
      count_ite_other CleanupAction.closeInputContext CleanupAction.closeSession
        (fun h => nomatch h),
      count_ite_other CleanupAction.closeInputContext CleanupAction.disconnectProcessor
        (fun h => nomatch h),
      count_ite_other CleanupAction.closeInputContext CleanupAction.closeOutputContext
        (fun h => nomatch h),
      count_match_stream_ne CleanupAction.closeInputContext (fun a h => nomatch h),
      count_match_interval_ne CleanupAction.closeInputContext (fun a h => nomatch h),
      count_map_ne CleanupAction.stopSource CleanupAction.closeInputContext
        (fun a h => nomatch h)]
    simp
  · simp only [cleanUp, List.count_append, count_ite_self,
      count_ite_other CleanupAction.closeOutputContext CleanupAction.closeSession
        (fun h => nomatch h),
      count_ite_other CleanupAction.closeOutputContext CleanupAction.disconnectProcessor
        (fun h => nomatch h),
      count_ite_other CleanupAction.closeOutputContext CleanupAction.closeInputContext
        (fun h => nomatch h),
      count_match_stream_ne CleanupAction.closeOutputContext (fun a h => nomatch h),
      count_match_interval_ne CleanupAction.closeOutputContext (fun a h => nomatch h),
      count_map_ne CleanupAction.stopSource CleanupAction.closeOutputContext
        (fun a h => nomatch h)]
    simp
  · intro i
    simp only [cleanUp, List.count_append, count_match_interval,
      count_ite_other (CleanupAction.clearFrameInterval i) CleanupAction.closeSession
        (fun h => nomatch h),
      count_ite_other (CleanupAction.clearFrameInterval i) CleanupAction.disconnectProcessor
        (fun h => nomatch h),
      count_ite_other (CleanupAction.clearFrameInterval i) CleanupAction.closeInputContext
        (fun h => nomatch h),
      count_ite_other (CleanupAction.clearFrameInterval i) CleanupAction.closeOutputContext
        (fun h => nomatch h),
      count_match_stream_ne (CleanupAction.clearFrameInterval i) (fun a h => nomatch h),
      count_map_ne CleanupAction.stopSource (CleanupAction.clearFrameInterval i)
        (fun a h => nomatch h)]
    simp
  · intro t
    simp only [cleanUp, List.count_append, count_match_stream,
      count_ite_other (CleanupAction.stopTrack t) CleanupAction.closeSession
        (fun h => nomatch h),
      count_ite_other (CleanupAction.stopTrack t) CleanupAction.disconnectProcessor
        (fun h => nomatch h),
      count_ite_other (CleanupAction.stopTrack t) CleanupAction.closeInputContext
        (fun h => nomatch h),
      count_ite_other (CleanupAction.stopTrack t) CleanupAction.closeOutputContext
        (fun h => nomatch h),
      count_match_interval_ne (CleanupAction.stopTrack t) (fun a h => nomatch h),
      count_map_ne CleanupAction.stopSource (CleanupAction.stopTrack t)
        (fun a h => nomatch h)]
    simp
  · intro i
    simp only [cleanUp, List.count_append,
      List.count_map_of_injective _ CleanupAction.stopSource (fun a b h => by cases h; rfl),
      count_ite_other (CleanupAction.stopSource i) CleanupAction.closeSession
        (fun h => nomatch h),
      count_ite_other (CleanupAction.stopSource i) CleanupAction.disconnectProcessor
        (fun h => nomatch h),
      count_ite_other (CleanupAction.stopSource i) CleanupAction.closeInputContext
        (fun h => nomatch h),
      count_ite_other (CleanupAction.stopSource i) CleanupAction.closeOutputContext
        (fun h => nomatch h),
      count_match_stream_ne (CleanupAction.stopSource i) (fun a h => nomatch h),
      count_match_interval_ne (CleanupAction.stopSource i) (fun a h => nomatch h)]
    simp

/-- Claim C8: an inbound audio chunk whose byte length is not a multiple of
`2 × channelCount` (one channel at the call site, so an odd byte length) is
dropped: the decode failure aborts only that chunk's handling, leaving the
transcript, the active set, and the start log untouched (only the line-288
`max` update of the cursor has already happened), no teardown or error
transition occurs, and a subsequent valid chunk is decoded and scheduled
normally. -/
theorem c8_malformed_chunk_recoverable (ci co : String) (s : AppState) (now now2 : ℚ)
    (bs bs2 : List ℕ) (hodd : bs.length % 2 = 1) (h256 : ∀ b ∈ bs, b < 256)
    (hne2 : bs2 ≠ []) (hev2 : bs2.length % 2 = 0) (h256b : ∀ b ∈ bs2, b < 256) :
    let s1 := { s with nextStartTime := max s.nextStartTime now }
    onmessage ci co now s (audioMsg (btoa bs)) = s1 ∧
    onmessage ci co now2 s1 (audioMsg (btoa bs2)) =
      { s1 with
        starts := (s1.nextSourceId, max s1.nextStartTime now2,
          ((bs2.length / 2 : ℕ) : ℚ) / 24000) :: s1.starts
        nextStartTime := max s1.nextStartTime now2 + ((bs2.length / 2 : ℕ) : ℚ) / 24000
        audioSources := s1.audioSources ++ [s1.nextSourceId]
        nextSourceId := s1.nextSourceId + 1 } :=
  ⟨onmessage_audio_malformed ci co now s bs hodd h256,
    onmessage_audio_step ci co now2 _ bs2 hne2 hev2 h256b⟩

unseal Rat.add Rat.mul Rat.inv Rat.sub Rat.ofScientific in
theorem c8_malformed_chunk_recoverable_witness :
    (([7] : List ℕ).length % 2 = 1 ∧ (∀ b ∈ ([7] : List ℕ), b < 256) ∧
      ([0, 0] : List ℕ) ≠ [] ∧ ([0, 0] : List ℕ).length % 2 = 0 ∧
      ∀ b ∈ ([0, 0] : List ℕ), b < 256) ∧
    (onmessage "" "" 3 initialState (audioMsg (btoa [7])) =
      { initialState with nextStartTime := max initialState.nextStartTime 3 } ∧
    onmessage "" "" 4 { initialState with nextStartTime := max initialState.nextStartTime 3 }
        (audioMsg (btoa [0, 0])) =
      { { initialState with nextStartTime := max initialState.nextStartTime 3 } with
        starts := ({ initialState with
            nextStartTime := max initialState.nextStartTime 3 }.nextSourceId,
          max { initialState with
            nextStartTime := max initialState.nextStartTime 3 }.nextStartTime 4,
          ((([0, 0] : List ℕ).length / 2 : ℕ) : ℚ) / 24000) ::
          { initialState with nextStartTime := max initialState.nextStartTime 3 }.starts
        nextStartTime := max { initialState with
            nextStartTime := max initialState.nextStartTime 3 }.nextStartTime 4 +
          ((([0, 0] : List ℕ).length / 2 : ℕ) : ℚ) / 24000
        audioSources := { initialState with
            nextStartTime := max initialState.nextStartTime 3 }.audioSources ++
          [{ initialState with
            nextStartTime := max initialState.nextStartTime 3 }.nextSourceId]
        nextSourceId := { initialState with
            nextStartTime := max initialState.nextStartTime 3 }.nextSourceId + 1 }) :=
  ⟨⟨by decide, by decide, by decide, by decide, by decide⟩,
    c8_malformed_chunk_recoverable "" "" initialState 3 4 [7] [0, 0]
      (by decide) (by decide) (by decide) (by decide) (by decide)⟩

/-- Claim C9: the audio encoder is deterministic — the encoded blob depends
only on the quantized sample values, so any two runs on inputs with equal
quantizations (in particular, two runs on the same input) produce identical
encoded output. -/
theorem c9_encode_deterministic (x y : List ℚ)
    (h : x.map storeInt16 = y.map storeInt16) : createBlob x = createBlob y := by
  unfold createBlob
  rw [h]

unseal Rat.add Rat.mul Rat.inv Rat.sub Rat.ofScientific in
theorem c9_encode_deterministic_witness :
    (([0] : List ℚ).map storeInt16 = ([1/65536] : List ℚ).map storeInt16) ∧
    createBlob [0] = createBlob [1/65536] :=
  ⟨by decide, c9_encode_deterministic [0] [1/65536] (by decide)⟩

unseal Rat.add Rat.mul Rat.inv Rat.sub Rat.ofScientific in
/-- Claim C10: for samples at or beyond the unit interval the 16-bit store in
`createBlob` wraps modulo `2^16` instead of clamping: over `[1, 2)` the stored
value is the truncated scaled sample minus `65536` — always negative, never the
clamp value `32767` — and the sample `1.0` in particular is stored as
`-32768`. -/
theorem c10_store_wraps (x : ℚ) (h1 : 1 ≤ x) (h2 : x < 2) :
    storeInt16 x = truncQ (x * 32768) - 65536 ∧ storeInt16 x < 0 ∧
    storeInt16 1 = -32768 := by
  have hq1 : (32768 : ℚ) ≤ x * 32768 := by linarith
  have hq2 : x * 32768 < 65536 := by linarith
  have ht1 : 32768 ≤ truncQ (x * 32768) := by
    unfold truncQ
    rw [if_pos (by linarith)]
    exact Int.le_floor.mpr (by exact_mod_cast hq1)
  have ht2 : truncQ (x * 32768) < 65536 := by
    unfold truncQ
    rw [if_pos (by linarith)]
    exact Int.floor_lt.mpr (by exact_mod_cast hq2)
  refine ⟨?_, ?_, by decide⟩
  · unfold storeInt16 toInt16
    omega
  · unfold storeInt16 toInt16
    omega

unseal Rat.add Rat.mul Rat.inv Rat.sub Rat.ofScientific in
theorem c10_store_wraps_witness :
    ((1 : ℚ) ≤ 3/2 ∧ (3/2 : ℚ) < 2) ∧
    (storeInt16 (3/2) = truncQ ((3/2) * 32768) - 65536 ∧ storeInt16 (3/2) < 0 ∧
     storeInt16 1 = -32768) :=
  ⟨⟨by decide, by decide⟩, c10_store_wraps (3/2) (by decide) (by decide)⟩

end GeminiVideoCall
